import Mathlib

/-
Verification of the graph container in src/graph.h (template class
graph<VertexProperty, EdgeProperty>) against its natural-language
specification.

Shallow embedding conventions:
  - vertex_descriptor (typedef size_t) is Nat.
  - edge_descriptor (typedef std::pair<size_t, size_t>, src/graph.h:32) is
    Nat × Nat.
  - MyVertexContainer (std::vector<vertex*>, with the comment "plan on
    making the vd/ID the index", src/graph.h:36) is List (Option (vertex V)):
    the index is the descriptor and an erased slot is none (the spec's
    "leave a hole, never reuse descriptors" policy).
  - MyEdgeContainer (std::vector<edge*>) is List (edge E).
  - MyAdjEdgeContainer maec is List (List (Nat × Nat)): the per-vertex
    ordered adjacency lists of edge descriptors, indexed by vertex
    descriptor (spec section 4.4).
  - Errors (spec section 7) are explicit values of type GraphError; an
    operation returns a pair of its Except result and the resulting graph,
    the graph unchanged on error (strong error safety, spec section 7).
Only insert_vertex (src/graph.h:92-97) and the vertex constructor
(src/graph.h:132-135) have bodies in the source; they are translated
exactly, including the constructor's self-assignment of its parameter.
All other operation bodies are missing from the source (declarations
only) and are modelled from the spec, as marked on each definition.
-/

namespace Prog4

/-- Error kinds of spec section 7: NotFound, InvalidEndpoint, ParseError. -/
inductive GraphError where
  | NotFound
  | InvalidEndpoint
  | ParseError
deriving DecidableEq, Repr

/-- Internal vertex record (src/graph.h:127-153): a descriptor field id and
a property field val. -/
structure vertex (V : Type) where
  id : Nat
  val : V
deriving DecidableEq, Repr

/-- The C++ vertex constructor, src/graph.h:132-135, translated exactly:
`vertex(vertex_descriptor vd, const VertexProperty& v) : id(0), val(0)`
followed by the body `vd = vd; val = v;`. The initializer list sets id to 0;
the body's `vd = vd` assigns the parameter to itself and never touches id,
and `val = v` overwrites val. Net effect: id = 0 (regardless of vd),
val = v. -/
def vertex.init {V : Type} (vd : Nat) (v : V) : vertex V :=
  let _selfAssigned : Nat := vd
  { id := 0, val := v }

/-- Internal edge record. Its state is left as a todo in src/graph.h:176-179;
modelled from the spec (section 3, Edge record): source descriptor, target
descriptor, property. Its descriptor is derived below per the typedef at
src/graph.h:32. -/
structure edge (E : Type) where
  src : Nat
  tgt : Nat
  val : E
deriving DecidableEq, Repr

/-- Edge descriptor accessor: edge_descriptor is
`std::pair<size_t, size_t>` commented "represents pair of vertex
descriptors" (src/graph.h:31-32), i.e. the (source, target) pair. -/
def edge.descriptor {E : Type} (e : edge E) : Nat × Nat :=
  (e.src, e.tgt)

/-- The graph container (src/graph.h:15-187) with its three member
containers mvc, mec, maec (src/graph.h:183-185). -/
structure graph (V E : Type) where
  mvc : List (Option (vertex V))
  mec : List (edge E)
  maec : List (List (Nat × Nat))
deriving DecidableEq, Repr

/-- Default-constructed graph (graph() = default, src/graph.h:63): all
containers empty. -/
def graph.empty (V E : Type) : graph V E :=
  { mvc := [], mec := [], maec := [] }

/-- Modelled from the spec: find(descriptor) of section 4.2 — the body of
find_vertex (declared src/graph.h:86-87) is missing. Descriptor-as-index
lookup per the container comment (src/graph.h:36); a hole or out-of-range
descriptor is "not found". -/
def graph.find_vertex {V E : Type} (g : graph V E) (d : Nat) :
    Option (vertex V) :=
  g.mvc.getD d none

/-- Presence test used by the modelled operations: the descriptor names a
currently-present (non-hole) vertex slot. -/
def graph.vertexPresent {V E : Type} (g : graph V E) (d : Nat) : Bool :=
  (g.mvc.getD d none).isSome

/-- Modelled from the spec: find_edge (declared src/graph.h:88-89) — first
edge record whose descriptor matches. -/
def graph.find_edge {V E : Type} (g : graph V E) (d : Nat × Nat) :
    Option (edge E) :=
  g.mec.find? (fun e => e.descriptor == d)

/-- Modelled from the spec: num_vertices (declared src/graph.h:84) — count
of currently-present vertices (section 4.5). -/
def graph.num_vertices {V E : Type} (g : graph V E) : Nat :=
  (g.mvc.filter (fun o => o.isSome)).length

/-- Modelled from the spec: num_edges (declared src/graph.h:85) — count of
currently-present edges. -/
def graph.num_edges {V E : Type} (g : graph V E) : Nat :=
  g.mec.length

/-- insert_vertex, translated from its body at src/graph.h:92-97:
`vertex_descriptor vd = mvc.size();` then construct vertex(vd, val) through
the constructor (preserving its id-stays-0 behaviour), push it onto mvc,
and return vd. (The source line `mvc.push_back(myVertex&)` intends to push
the just-constructed vertex.) The new vertex's empty adjacency list slot in
maec comes from the spec's adjacency index, section 4.4. -/
def graph.insert_vertex {V E : Type} (g : graph V E) (v : V) :
    Nat × graph V E :=
  let vd := g.mvc.length
  (vd, { g with mvc := g.mvc ++ [some (vertex.init vd v)],
                maec := g.maec ++ [[]] })

/-- Append an edge descriptor to the adjacency list stored at index u
(spec section 4.4: "appends the new edge descriptor to its source vertex's
list"). -/
def appendAdj (ls : List (List (Nat × Nat))) (u : Nat) (d : Nat × Nat) :
    List (List (Nat × Nat)) :=
  ls.set u (ls.getD u [] ++ [d])

/-- Modelled from the spec: insert_edge (declared src/graph.h:99-100, body
missing) — fails with InvalidEndpoint if either endpoint is not currently
present (sections 4.3, 4.5), otherwise appends the edge record and its
adjacency entry and returns the edge descriptor, which per the typedef at
src/graph.h:31-32 is the (source, target) pair. On failure the graph is
unchanged (section 7). -/
def graph.insert_edge {V E : Type} (g : graph V E) (u v : Nat) (e : E) :
    Except GraphError (Nat × Nat) × graph V E :=
  if g.vertexPresent u && g.vertexPresent v then
    (Except.ok (u, v),
     { g with mec := g.mec ++ [{ src := u, tgt := v, val := e }],
              maec := appendAdj g.maec u (u, v) })
  else
    (Except.error GraphError.InvalidEndpoint, g)

/-- Modelled from the spec: insert_edge_undirected (declared
src/graph.h:102-103, body missing) — fails with InvalidEndpoint under the
same condition as insert_edge; otherwise atomically inserts both (u,v) and
(v,u) with a copy of the property (sections 4.3, 4.5), the companion edge
appended to the target's adjacency list (section 4.4). Returns no
descriptor (void in the source). -/
def graph.insert_edge_undirected {V E : Type} (g : graph V E) (u v : Nat)
    (e : E) : Except GraphError Unit × graph V E :=
  if g.vertexPresent u && g.vertexPresent v then
    (Except.ok (),
     { g with mec := g.mec ++ [{ src := u, tgt := v, val := e },
                               { src := v, tgt := u, val := e }],
              maec := appendAdj (appendAdj g.maec u (u, v)) v (v, u) })
  else
    (Except.error GraphError.InvalidEndpoint, g)

/-- Modelled from the spec: erase_vertex (declared src/graph.h:105, body
missing; its comment asks "shift the vd's ... or just leave a hole?" and
the spec, sections 4.2 and 9, answers: leave a hole, never reuse) — fails
with NotFound if the descriptor is absent (section 4.5); otherwise sets the
slot to a hole, removes every edge with the vertex as source or target, and
removes every adjacency entry referencing it, dropping the erased vertex's
own list (section 4.4). -/
def graph.erase_vertex {V E : Type} (g : graph V E) (d : Nat) :
    Except GraphError Unit × graph V E :=
  if g.vertexPresent d then
    (Except.ok (),
     { mvc := g.mvc.set d none,
       mec := g.mec.filter (fun e => !(e.src == d || e.tgt == d)),
       maec := (g.maec.set d []).map
         (fun l => l.filter (fun ed => !(ed.1 == d || ed.2 == d))) })
  else
    (Except.error GraphError.NotFound, g)

/-- Modelled from the spec: clear (declared src/graph.h:109, body missing)
— removes all vertices and edges and resets descriptor allocation to the
initial state (section 4.5); never fails. -/
def graph.clear {V E : Type} (_g : graph V E) : graph V E :=
  graph.empty V E

/- Basic list lemmas used throughout. -/

theorem getD_nil_eq {α : Type} (n : Nat) (d : α) : List.getD [] n d = d := by
  simp [List.getD]

theorem getD_append_left {α : Type} (l l2 : List α) (n : Nat) (d : α)
    (h : n < l.length) : (l ++ l2).getD n d = l.getD n d := by
  induction l generalizing n with
  | nil => exact absurd h (by simp)
  | cons a t ih =>
    cases n with
    | zero => simp [List.getD]
    | succ m =>
      simp only [List.cons_append, List.getD_cons_succ]
      exact ih m (by simpa using h)

theorem getD_concat_self {α : Type} (l : List α) (a : α) (d : α) :
    (l ++ [a]).getD l.length d = a := by
  induction l with
  | nil => simp [List.getD]
  | cons b t ih =>
    simp only [List.cons_append, List.length_cons, List.getD_cons_succ]
    exact ih

theorem getD_set_self {α : Type} (l : List α) (n : Nat) (x : α) (d : α)
    (h : n < l.length) : (l.set n x).getD n d = x := by
  induction l generalizing n with
  | nil => exact absurd h (by simp)
  | cons a t ih =>
    cases n with
    | zero => simp [List.getD]
    | succ m =>
      simp only [List.set_cons_succ, List.getD_cons_succ]
      exact ih m (by simpa using h)

theorem getD_set_none_preserve {α : Type} (l : List (Option α)) (n m : Nat)
    (h : l.getD n none = none) : (l.set m none).getD n none = none := by
  induction l generalizing n m with
  | nil => simp [List.getD]
  | cons a t ih =>
    cases m with
    | zero =>
      cases n with
      | zero => simp [List.getD]
      | succ k => simpa [List.getD] using h
    | succ m2 =>
      cases n with
      | zero => simpa [List.getD] using h
      | succ k =>
        simp only [List.set_cons_succ, List.getD_cons_succ] at h ⊢
        exact ih k m2 h

theorem getD_of_ge {α : Type} (l : List α) (n : Nat) (d : α)
    (h : l.length ≤ n) : l.getD n d = d := by
  induction l generalizing n with
  | nil => simp [List.getD]
  | cons a t ih =>
    cases n with
    | zero => exact absurd h (by simp)
    | succ m =>
      simp only [List.getD_cons_succ]
      exact ih m (by simpa using h)

theorem present_lt {V E : Type} (g : graph V E) (d : Nat)
    (h : g.vertexPresent d = true) : d < g.mvc.length := by
  by_contra hc
  have hge : g.mvc.length ≤ d := Nat.le_of_not_lt hc
  unfold graph.vertexPresent at h
  rw [getD_of_ge _ _ _ hge] at h
  simp at h

/-- Live (descriptor, property) pairs listed from a vertex slot list,
starting at index i: the iteration view of spec section 4.2 (ascending
descriptor order, skipping holes). -/
def linesFrom {V : Type} : Nat → List (Option (vertex V)) → List (Nat × V)
  | _, [] => []
  | i, none :: rest => linesFrom (i + 1) rest
  | i, some w :: rest => (i, w.val) :: linesFrom (i + 1) rest

/-- Live (descriptor, property) pairs of a graph, in ascending descriptor
order. -/
def graph.vertexList {V E : Type} (g : graph V E) : List (Nat × V) :=
  linesFrom 0 g.mvc

theorem linesFrom_append {V : Type} (a b : List (Option (vertex V)))
    (i : Nat) :
    linesFrom i (a ++ b) = linesFrom i a ++ linesFrom (i + a.length) b := by
  induction a generalizing i with
  | nil => simp [linesFrom]
  | cons x t ih =>
    cases x with
    | none =>
      show linesFrom (i + 1) (t ++ b) =
        linesFrom (i + 1) t ++ linesFrom (i + (t.length + 1)) b
      rw [ih (i + 1)]
      have hx : i + 1 + t.length = i + (t.length + 1) := by omega
      rw [hx]
    | some w =>
      show (i, w.val) :: linesFrom (i + 1) (t ++ b) =
        ((i, w.val) :: linesFrom (i + 1) t) ++ linesFrom (i + (t.length + 1)) b
      rw [ih (i + 1)]
      have hx : i + 1 + t.length = i + (t.length + 1) := by omega
      rw [hx]
      rfl

theorem linesFrom_replicate_none {V : Type} (k i : Nat) :
    linesFrom i (List.replicate k (none : Option (vertex V))) = [] := by
  induction k generalizing i with
  | zero => simp [linesFrom]
  | succ m ih => simpa [List.replicate, linesFrom] using ih (i + 1)

theorem linesFrom_lb {V : Type} (l : List (Option (vertex V))) (i : Nat) :
    ∀ p ∈ linesFrom i l, i ≤ p.1 := by
  induction l generalizing i with
  | nil =>
    intro p hp
    simp [linesFrom] at hp
  | cons x t ih =>
    cases x with
    | none =>
      intro p hp
      simp only [linesFrom] at hp
      have := ih (i + 1) p hp
      omega
    | some w =>
      intro p hp
      simp only [linesFrom, List.mem_cons] at hp
      rcases hp with rfl | hp
      · simp
      · have := ih (i + 1) p hp
        omega

theorem linesFrom_pairwise {V : Type} (l : List (Option (vertex V)))
    (i : Nat) :
    (linesFrom i l).Pairwise (fun a b => a.1 < b.1) := by
  induction l generalizing i with
  | nil => simp [linesFrom]
  | cons x t ih =>
    cases x with
    | none => simpa [linesFrom] using ih (i + 1)
    | some w =>
      simp only [linesFrom]
      refine List.Pairwise.cons ?_ (ih (i + 1))
      intro b hb
      have := linesFrom_lb t (i + 1) b hb
      omega

/-- Live descriptors of a graph are pairwise distinct. -/
theorem vertexList_descriptors_nodup {V E : Type} (g : graph V E) :
    (g.vertexList.map Prod.fst).Nodup := by
  have hp := linesFrom_pairwise g.mvc 0
  unfold graph.vertexList
  rw [List.Nodup, List.pairwise_map]
  exact hp.imp (fun h => Nat.ne_of_lt h)

/-- Mutation steps on the vertex store, for stating descriptor-allocation
properties over arbitrary operation sequences. -/
inductive gop (V : Type) where
  | insV (v : V)
  | eraseV (d : Nat)

/-- Apply one vertex-store operation through the graph facade. -/
def graph.applyOp {V E : Type} (g : graph V E) : gop V → graph V E
  | gop.insV v => (g.insert_vertex v).2
  | gop.eraseV d => (g.erase_vertex d).2

/-- Run an operation sequence from the default-constructed graph. -/
def runOps (V E : Type) (ops : List (gop V)) : graph V E :=
  ops.foldl graph.applyOp (graph.empty V E)

/-- The slot of descriptor d exists but is a hole (d was erased, since
holes arise only from erasure). -/
def graph.erasedSlot {V E : Type} (g : graph V E) (d : Nat) : Prop :=
  d < g.mvc.length ∧ g.mvc.getD d none = none

theorem erasedSlot_applyOp {V E : Type} (g : graph V E) (op : gop V)
    (d : Nat) (h : g.erasedSlot d) : (g.applyOp op).erasedSlot d := by
  obtain ⟨hlt, hnone⟩ := h
  cases op with
  | insV v =>
    constructor
    · simp only [graph.applyOp, graph.insert_vertex, List.length_append]
      omega
    · simp only [graph.applyOp, graph.insert_vertex]
      rw [getD_append_left _ _ _ _ hlt]
      exact hnone
  | eraseV d2 =>
    by_cases hp : g.vertexPresent d2 = true
    · simp only [graph.applyOp, graph.erase_vertex, hp, if_true]
      exact ⟨by simpa using hlt, getD_set_none_preserve _ _ _ hnone⟩
    · rw [Bool.not_eq_true] at hp
      simp only [graph.applyOp, graph.erase_vertex, hp]
      exact ⟨by simpa using hlt, hnone⟩

theorem erasedSlot_foldl {V E : Type} (ops : List (gop V)) (g : graph V E)
    (d : Nat) (h : g.erasedSlot d) :
    (ops.foldl graph.applyOp g).erasedSlot d := by
  induction ops generalizing g with
  | nil => exact h
  | cons op rest ih => exact ih _ (erasedSlot_applyOp g op d h)

/-- C7: over any sequence of insert_vertex and erase_vertex operations, no
two live vertices share a descriptor, and once a descriptor's slot has
been erased, any continuation of the sequence still resolves that
descriptor to "not found" — erased descriptors are never reused. -/
theorem vertex_descriptor_no_reuse {V E : Type}
    (ops1 ops2 : List (gop V)) (d : Nat) :
    ((runOps V E ops1).vertexList.map Prod.fst).Nodup ∧
    ((runOps V E ops1).erasedSlot d →
      (runOps V E (ops1 ++ ops2)).find_vertex d = none) := by
  constructor
  · exact vertexList_descriptors_nodup _
  · intro h
    unfold runOps at h ⊢
    rw [List.foldl_append]
    exact (erasedSlot_foldl ops2 _ d h).2

/-- C7 witness: insert descriptor 0, erase it, insert again — the erased
descriptor 0 still resolves to "not found". -/
theorem vertex_descriptor_no_reuse_witness :
    ((runOps Nat Nat [gop.insV 5, gop.eraseV 0]).erasedSlot 0) ∧
    ((runOps Nat Nat ([gop.insV 5, gop.eraseV 0] ++ [gop.insV 7])).find_vertex
      0 = none) :=
  ⟨⟨by decide, rfl⟩,
   (@vertex_descriptor_no_reuse Nat Nat [gop.insV 5, gop.eraseV 0]
     [gop.insV 7] 0).2 ⟨by decide, rfl⟩⟩

/-- Erasing a present vertex leaves a hole at its descriptor. -/
theorem erase_vertex_gone {V E : Type} (g : graph V E) (d : Nat)
    (hp : g.vertexPresent d = true) :
    (g.erase_vertex d).2.vertexPresent d = false := by
  have hlt := present_lt g d hp
  simp only [graph.erase_vertex, hp, if_true]
  simp only [graph.vertexPresent]
  rw [getD_set_self g.mvc d none none hlt]
  rfl

/-- An erase_vertex call that returned ok was called on a present vertex. -/
theorem erase_ok_present {V E : Type} (g : graph V E) (d : Nat)
    (h : (g.erase_vertex d).1 = Except.ok ()) :
    g.vertexPresent d = true := by
  by_contra hc
  rw [Bool.not_eq_true] at hc
  unfold graph.erase_vertex at h
  simp [hc] at h

/-- C10: the vertex constructed by vertex(vd, v) stores descriptor 0
regardless of vd — the constructor initializes id to 0 and its body only
self-assigns the parameter — so every vertex record created through
insert_vertex carries stored id 0, while insert_vertex returns the
container size as the descriptor. -/
theorem vertex_ctor_ignores_descriptor {V E : Type} (g : graph V E)
    (vd : Nat) (v w : V) :
    (vertex.init vd v).id = 0 ∧
    (g.insert_vertex w).1 = g.mvc.length ∧
    (g.insert_vertex w).2.find_vertex ((g.insert_vertex w).1) =
      some { id := 0, val := w } := by
  refine ⟨rfl, rfl, ?_⟩
  unfold graph.insert_vertex graph.find_vertex
  rw [getD_concat_self]
  rfl

/-- C8 failing input: inserting properties 5 then 7 into an empty graph.
The second call returns descriptor 1, but the stored record's descriptor
field (id) is 0, not the allocated descriptor — the constructor bug of
src/graph.h:132-135 contradicts the spec's "allocates the next descriptor,
stores the property" contract for the record's accessors. -/
theorem insert_vertex_stored_descriptor_mismatch :
    (((graph.empty Nat Nat).insert_vertex 5).2.insert_vertex 7).1 = 1 ∧
    (((((graph.empty Nat Nat).insert_vertex 5).2.insert_vertex 7).2.find_vertex
        1).map vertex.id) = some 0 ∧
    some (1 : Nat) ≠ some (0 : Nat) := by
  refine ⟨rfl, rfl, by decide⟩

/-- C4: insert_edge with an absent endpoint fails with InvalidEndpoint as
an explicit result value, leaves num_edges unchanged, and in fact leaves
the whole graph unchanged. -/
theorem insert_edge_invalid_endpoint {V E : Type} (g : graph V E)
    (u v : Nat) (e : E)
    (h : g.vertexPresent u = false ∨ g.vertexPresent v = false) :
    (g.insert_edge u v e).1 = Except.error GraphError.InvalidEndpoint ∧
    (g.insert_edge u v e).2.num_edges = g.num_edges ∧
    (g.insert_edge u v e).2 = g := by
  unfold graph.insert_edge
  rcases h with h | h <;> simp [h]

/-- C4 witness: inserting the edge (0, 1, 5) into the empty graph, where
vertex 0 is absent. -/
theorem insert_edge_invalid_endpoint_witness :
    ((graph.empty Nat Nat).vertexPresent 0 = false ∨
      (graph.empty Nat Nat).vertexPresent 1 = false) ∧
    (((graph.empty Nat Nat).insert_edge 0 1 5).1 =
        Except.error GraphError.InvalidEndpoint ∧
      ((graph.empty Nat Nat).insert_edge 0 1 5).2.num_edges =
        (graph.empty Nat Nat).num_edges ∧
      ((graph.empty Nat Nat).insert_edge 0 1 5).2 = graph.empty Nat Nat) :=
  ⟨Or.inl (by decide),
   insert_edge_invalid_endpoint (graph.empty Nat Nat) 0 1 5 (Or.inl (by decide))⟩

/-- C5: insert_edge_undirected either appends exactly the two edges u→v
and v→u (the second carrying a copy of the property), raising num_edges by
2, or fails with InvalidEndpoint leaving the graph (and num_edges)
unchanged — never exactly one edge. -/
theorem insert_edge_undirected_two_or_none {V E : Type} (g : graph V E)
    (u v : Nat) (e : E) :
    ((g.insert_edge_undirected u v e).2.mec =
        g.mec ++ [{ src := u, tgt := v, val := e },
                  { src := v, tgt := u, val := e }] ∧
      (g.insert_edge_undirected u v e).2.num_edges = g.num_edges + 2) ∨
    ((g.insert_edge_undirected u v e).1 =
        Except.error GraphError.InvalidEndpoint ∧
      (g.insert_edge_undirected u v e).2 = g ∧
      (g.insert_edge_undirected u v e).2.num_edges = g.num_edges) := by
  unfold graph.insert_edge_undirected
  by_cases h : (g.vertexPresent u && g.vertexPresent v) = true
  · left
    simp [h, graph.num_edges]
  · right
    simp [h]

/-- C9: clear never fails and resets everything: zero counts, nothing
findable, and the next inserted vertex receives descriptor 0 again. -/
theorem clear_resets_graph {V E : Type} (g : graph V E) (v : V) (d : Nat)
    (ed : Nat × Nat) :
    (g.clear).num_vertices = 0 ∧ (g.clear).num_edges = 0 ∧
    (g.clear).find_vertex d = none ∧ (g.clear).find_edge ed = none ∧
    ((g.clear).insert_vertex v).1 = 0 := by
  refine ⟨rfl, rfl, ?_, rfl, rfl⟩
  unfold graph.clear graph.empty graph.find_vertex
  simp [List.getD]

/-- Modelled from the spec: output half of the Text Codec — operator<< is
declared at src/graph.h:192-193 with no body. C++ iostream formatted
output of size_t values is a whitespace-separated token stream, embedded
here as a list of Nat tokens, with the graph template instantiated at Nat
vertex and edge properties (whose rendering is the number itself). The
stream carries the vertex count and edge count, then one (descriptor,
property) line per present vertex in ascending descriptor order, then one
(source, target, property) line per edge (spec section 6). -/
def serializeG (g : graph Nat Nat) : List Nat :=
  g.num_vertices :: g.num_edges ::
    ((g.vertexList.flatMap fun p => [p.1, p.2]) ++
     (g.mec.flatMap fun e => [e.src, e.tgt, e.val]))

/-- Modelled from the spec: read n two-token vertex lines from the stream,
returning them with the remaining stream; none signals a malformed
(truncated) stream. -/
def readPairs : Nat → List Nat → Option (List (Nat × Nat) × List Nat)
  | 0, ts => some ([], ts)
  | n + 1, a :: b :: ts =>
    match readPairs n ts with
    | some (ps, rest) => some ((a, b) :: ps, rest)
    | none => none
  | _ + 1, _ => none

/-- Modelled from the spec: read m three-token edge lines from the stream. -/
def readTriples : Nat → List Nat → Option (List (Nat × Nat × Nat) × List Nat)
  | 0, ts => some ([], ts)
  | m + 1, a :: b :: c :: ts =>
    match readTriples m ts with
    | some (ps, rest) => some ((a, b, c) :: ps, rest)
    | none => none
  | _ + 1, _ => none

/-- Modelled from the spec: deserialization places each declared vertex at
its declared descriptor, padding skipped descriptors with holes (spec
section 6: reconstruct an equivalent graph, vertex properties keyed by
descriptor). Vertices are created through the vertex constructor. -/
def placeVertex {V : Type} (l : List (Option (vertex V))) (d : Nat)
    (p : V) : List (Option (vertex V)) :=
  if d < l.length then l.set d (some (vertex.init d p))
  else l ++ List.replicate (d - l.length) none ++ [some (vertex.init d p)]

/-- Vertex store rebuilt from parsed (descriptor, property) lines. -/
def buildSlots {V : Type} (ps : List (Nat × V)) : List (Option (vertex V)) :=
  ps.foldl (fun l p => placeVertex l p.1 p.2) []

/-- Modelled from the spec: re-insert the parsed edge lines through
insert_edge, so that an edge line referencing an undeclared vertex fails
with InvalidEndpoint (spec section 6). -/
def insertEdges (g : graph Nat Nat) :
    List (Nat × Nat × Nat) → Except GraphError (graph Nat Nat)
  | [] => Except.ok g
  | t :: rest =>
    match (g.insert_edge t.1 t.2.1 t.2.2).1 with
    | Except.ok _ => insertEdges (g.insert_edge t.1 t.2.1 t.2.2).2 rest
    | Except.error err => Except.error err

/-- Edge-section stage of deserialization: parse m edge lines from the
remaining stream, require the stream to be exhausted, and re-insert the
edges into the rebuilt vertex store. -/
def deserializeEdges (vps : List (Nat × Nat)) (m : Nat)
    (rest1 : List Nat) : Except GraphError (graph Nat Nat) :=
  match readTriples m rest1 with
  | some (eps, rest2) =>
    if rest2 = [] then
      insertEdges
        { mvc := buildSlots vps, mec := [],
          maec := List.replicate (buildSlots vps).length [] } eps
    else Except.error GraphError.ParseError
  | none => Except.error GraphError.ParseError

/-- Vertex-section stage of deserialization: parse n vertex lines, then
hand over to the edge stage. -/
def deserializeVerts (n m : Nat) (rest : List Nat) :
    Except GraphError (graph Nat Nat) :=
  match readPairs n rest with
  | some (vps, rest1) => deserializeEdges vps m rest1
  | none => Except.error GraphError.ParseError

/-- Modelled from the spec: input half of the Text Codec — operator>> is
declared at src/graph.h:190-191 with no body. Parses the two counts, n
vertex lines and m edge lines; fails with ParseError on malformed input
and with InvalidEndpoint if an edge line references a vertex descriptor
not declared in the vertex section (spec section 6). -/
def deserializeG (ts : List Nat) : Except GraphError (graph Nat Nat) :=
  match ts with
  | n :: m :: rest => deserializeVerts n m rest
  | _ => Except.error GraphError.ParseError

/-- Referential invariant of spec section 3 as a Boolean check: every edge
record's endpoints are currently present in the vertex store. -/
def graph.edgesValid {V E : Type} (g : graph V E) : Bool :=
  g.mec.all (fun e => g.vertexPresent e.src && g.vertexPresent e.tgt)

/-- Two-vertex graph (descriptors 0 and 1) used as concrete input for the
parallel-edge scenario. -/
def cexTwoVertices : graph Nat String :=
  (((graph.empty Nat String).insert_vertex 0).2.insert_vertex 1).2

/-- C1 counterexample: inserting the parallel edges (0,1,"x") and
(0,1,"z") — both insertions succeed and num_edges becomes 2, but the two
returned edge descriptors are equal, not distinct: edge_descriptor is the
(source, target) pair (src/graph.h:31-32) with no sequence component. -/
theorem parallel_edge_descriptors_collide :
    (cexTwoVertices.insert_edge 0 1 "x").1 = Except.ok (0, 1) ∧
    ((cexTwoVertices.insert_edge 0 1 "x").2.insert_edge 0 1 "z").1 =
      Except.ok (0, 1) ∧
    ((cexTwoVertices.insert_edge 0 1 "x").2.insert_edge 0 1 "z").2.num_edges
      = 2 ∧
    (cexTwoVertices.insert_edge 0 1 "x").1 =
      ((cexTwoVertices.insert_edge 0 1 "x").2.insert_edge 0 1 "z").1 :=
  ⟨rfl, rfl, rfl, rfl⟩

/-- C1 amended: edge descriptors are (source, target) pairs — the typedef
std::pair of size_t at src/graph.h:31-32 has no sequence component — so a
successful insert_edge(u, v, e) returns exactly the descriptor (u, v), and
two parallel edges between the same ordered pair receive equal
descriptors. -/
theorem insert_edge_descriptor_is_endpoint_pair {V E : Type}
    (g : graph V E) (u v : Nat) (e : E) (d : Nat × Nat)
    (h : (g.insert_edge u v e).1 = Except.ok d) : d = (u, v) := by
  unfold graph.insert_edge at h
  by_cases hp : (g.vertexPresent u && g.vertexPresent v) = true
  · simp only [hp, if_true, Except.ok.injEq] at h
    exact h.symm
  · simp [hp] at h

/-- C1 amended witness: the first parallel-edge insertion of the scenario
returns descriptor (0, 1). -/
theorem insert_edge_descriptor_is_endpoint_pair_witness :
    (cexTwoVertices.insert_edge 0 1 "x").1 = Except.ok (0, 1) ∧
    ((0 : Nat), (1 : Nat)) = (0, 1) :=
  ⟨rfl,
   insert_edge_descriptor_is_endpoint_pair cexTwoVertices 0 1 "x" (0, 1) rfl⟩

/-- C2: after erase_vertex(d) succeeds, the vertex is gone, no remaining
edge has d as source or target, and no adjacency entry in any vertex's
list references d. -/
theorem erase_vertex_removes_incident {V E : Type} (g : graph V E)
    (d : Nat) (h : (g.erase_vertex d).1 = Except.ok ()) :
    (g.erase_vertex d).2.vertexPresent d = false ∧
    (∀ e ∈ (g.erase_vertex d).2.mec, e.src ≠ d ∧ e.tgt ≠ d) ∧
    (∀ l ∈ (g.erase_vertex d).2.maec, ∀ ed ∈ l, ed.1 ≠ d ∧ ed.2 ≠ d) := by
  have hp := erase_ok_present g d h
  refine ⟨erase_vertex_gone g d hp, ?_, ?_⟩
  · intro e he
    simp only [graph.erase_vertex, hp, if_true] at he
    simp only [List.mem_filter] at he
    have hb := he.2
    simp only [Bool.not_eq_eq_eq_not, Bool.not_true, Bool.or_eq_false_iff,
      beq_eq_false_iff_ne] at hb
    exact hb
  · intro l hl ed hed
    simp only [graph.erase_vertex, hp, if_true] at hl
    simp only [List.mem_map] at hl
    obtain ⟨l0, _, rfl⟩ := hl
    simp only [List.mem_filter] at hed
    have hb := hed.2
    simp only [Bool.not_eq_eq_eq_not, Bool.not_true, Bool.or_eq_false_iff,
      beq_eq_false_iff_ne] at hb
    exact hb

/-- Concrete input for the C2 witness: two vertices (descriptors 0, 1)
with the edge (0, 1, 99). -/
def c2Graph : graph Nat Nat :=
  ((((graph.empty Nat Nat).insert_vertex 10).2.insert_vertex
      11).2.insert_edge 0 1 99).2

/-- C2 witness: erasing vertex 0 from a two-vertex graph with the edge
(0, 1, 99). -/
theorem erase_vertex_removes_incident_witness :
    (c2Graph.erase_vertex 0).1 = Except.ok () ∧
    ((c2Graph.erase_vertex 0).2.vertexPresent 0 = false ∧
      (∀ e ∈ (c2Graph.erase_vertex 0).2.mec, e.src ≠ 0 ∧ e.tgt ≠ 0) ∧
      (∀ l ∈ (c2Graph.erase_vertex 0).2.maec,
        ∀ ed ∈ l, ed.1 ≠ 0 ∧ ed.2 ≠ 0)) :=
  ⟨rfl, erase_vertex_removes_incident c2Graph 0 rfl⟩

/-- C6: erase_vertex on an absent descriptor fails with NotFound (leaving
the graph unchanged), and after a successful erase_vertex the same call
made again fails with NotFound — never a silent no-op. -/
theorem erase_vertex_notfound_on_absent {V E : Type} (g : graph V E)
    (d : Nat) :
    (g.vertexPresent d = false →
      (g.erase_vertex d).1 = Except.error GraphError.NotFound ∧
      (g.erase_vertex d).2 = g) ∧
    ((g.erase_vertex d).1 = Except.ok () →
      ((g.erase_vertex d).2.erase_vertex d).1 =
        Except.error GraphError.NotFound) := by
  constructor
  · intro h
    unfold graph.erase_vertex
    simp [h]
  · intro h
    have h2 := erase_vertex_gone g d (erase_ok_present g d h)
    generalize hg : (g.erase_vertex d).2 = g2 at h2 ⊢
    unfold graph.erase_vertex
    simp [h2]

theorem readPairs_flat (ps : List (Nat × Nat)) (rest : List Nat) :
    readPairs ps.length ((ps.flatMap fun p => [p.1, p.2]) ++ rest) =
      some (ps, rest) := by
  induction ps with
  | nil => rfl
  | cons p t ih =>
    show (match readPairs t.length ((t.flatMap fun p => [p.1, p.2]) ++ rest)
        with
      | some (ps2, r2) => some ((p.1, p.2) :: ps2, r2)
      | none => none) = some (p :: t, rest)
    rw [ih]

theorem readTriples_flat (es : List (edge Nat)) (rest : List Nat) :
    readTriples es.length
      ((es.flatMap fun e => [e.src, e.tgt, e.val]) ++ rest) =
      some (es.map fun e => (e.src, e.tgt, e.val), rest) := by
  induction es with
  | nil => rfl
  | cons e t ih =>
    show (match readTriples t.length
        ((t.flatMap fun e => [e.src, e.tgt, e.val]) ++ rest) with
      | some (ps2, r2) => some ((e.src, e.tgt, e.val) :: ps2, r2)
      | none => none) =
      some ((e.src, e.tgt, e.val) ::
        (t.map fun e => (e.src, e.tgt, e.val)), rest)
    rw [ih]

theorem linesFrom_length {V : Type} (l : List (Option (vertex V)))
    (i : Nat) :
    (linesFrom i l).length = (l.filter (fun o => o.isSome)).length := by
  induction l generalizing i with
  | nil => rfl
  | cons x t ih =>
    cases x with
    | none => simpa [linesFrom] using ih (i + 1)
    | some w => simpa [linesFrom] using ih (i + 1)

theorem num_vertices_eq_vertexList_length {V E : Type} (g : graph V E) :
    g.num_vertices = g.vertexList.length := by
  unfold graph.num_vertices graph.vertexList
  exact (linesFrom_length g.mvc 0).symm

theorem linesFrom_build {V : Type} (mvc : List (Option (vertex V)))
    (i : Nat) (acc : List (Option (vertex V))) (h : acc.length ≤ i) :
    linesFrom 0
      ((linesFrom i mvc).foldl (fun l p => placeVertex l p.1 p.2) acc) =
      linesFrom 0 acc ++ linesFrom i mvc := by
  induction mvc generalizing i acc with
  | nil => simp [linesFrom]
  | cons x t ih =>
    cases x with
    | none =>
      show linesFrom 0
          ((linesFrom (i + 1) t).foldl (fun l p => placeVertex l p.1 p.2) acc)
          = linesFrom 0 acc ++ linesFrom (i + 1) t
      exact ih (i + 1) acc (by omega)
    | some w =>
      have hnotlt : ¬ i < acc.length := by omega
      have hplace : placeVertex acc i w.val =
          acc ++ List.replicate (i - acc.length) none ++
            [some (vertex.init i w.val)] := by
        unfold placeVertex
        rw [if_neg hnotlt]
      have hlen : (placeVertex acc i w.val).length = i + 1 := by
        rw [hplace]
        simp only [List.length_append, List.length_replicate,
          List.length_cons, List.length_nil]
        omega
      have hlines : linesFrom 0 (placeVertex acc i w.val) =
          linesFrom 0 acc ++ [(i, w.val)] := by
        rw [hplace, linesFrom_append, linesFrom_append,
          linesFrom_replicate_none]
        have hx : 0 + (acc ++ List.replicate (i - acc.length)
            (none : Option (vertex V))).length = i := by
          simp only [List.length_append, List.length_replicate]
          omega
        rw [hx]
        simp [linesFrom, vertex.init]
      show linesFrom 0
          (((i, w.val) :: linesFrom (i + 1) t).foldl
            (fun l p => placeVertex l p.1 p.2) acc)
          = linesFrom 0 acc ++ (i, w.val) :: linesFrom (i + 1) t
      rw [List.foldl_cons]
      rw [ih (i + 1) (placeVertex acc i w.val) (by omega)]
      rw [hlines]
      simp

theorem mem_linesFrom_of_getD {V : Type} (l : List (Option (vertex V)))
    (i j : Nat) (w : vertex V) (h : l.getD j none = some w) :
    (i + j, w.val) ∈ linesFrom i l := by
  induction l generalizing i j with
  | nil => simp [List.getD] at h
  | cons x t ih =>
    cases j with
    | zero =>
      rw [List.getD_cons_zero] at h
      subst h
      simp [linesFrom]
    | succ k =>
      rw [List.getD_cons_succ] at h
      have hmem := ih (i + 1) k h
      have hx : i + 1 + k = i + (k + 1) := by omega
      rw [hx] at hmem
      cases x with
      | none => simpa [linesFrom] using hmem
      | some w2 =>
        simp only [linesFrom, List.mem_cons]
        exact Or.inr hmem

theorem getD_isSome_of_mem_linesFrom {V : Type}
    (l : List (Option (vertex V))) (i : Nat) (p : Nat × V)
    (h : p ∈ linesFrom i l) :
    (l.getD (p.1 - i) none).isSome = true := by
  induction l generalizing i with
  | nil => simp [linesFrom] at h
  | cons x t ih =>
    cases x with
    | none =>
      simp only [linesFrom] at h
      have hlb := linesFrom_lb t (i + 1) p h
      have hrec := ih (i + 1) h
      have hx : p.1 - i = (p.1 - (i + 1)) + 1 := by omega
      rw [hx, List.getD_cons_succ]
      exact hrec
    | some w =>
      simp only [linesFrom, List.mem_cons] at h
      rcases h with rfl | h
      · simp
      · have hlb := linesFrom_lb t (i + 1) p h
        have hrec := ih (i + 1) h
        have hx : p.1 - i = (p.1 - (i + 1)) + 1 := by omega
        rw [hx, List.getD_cons_succ]
        exact hrec

/-- A descriptor listed in the vertex list is present. -/
theorem present_of_vertexList_mem {V E : Type} (g : graph V E) (d : Nat)
    (p : V) (h : (d, p) ∈ g.vertexList) : g.vertexPresent d = true := by
  have hg := getD_isSome_of_mem_linesFrom g.mvc 0 (d, p) h
  simpa [graph.vertexPresent] using hg

/-- A present descriptor appears in the vertex list with its property. -/
theorem vertexList_mem_of_present {V E : Type} (g : graph V E) (d : Nat)
    (h : g.vertexPresent d = true) : ∃ p, (d, p) ∈ g.vertexList := by
  unfold graph.vertexPresent at h
  obtain ⟨w, hw⟩ := Option.isSome_iff_exists.mp h
  refine ⟨w.val, ?_⟩
  have hm := mem_linesFrom_of_getD g.mvc 0 d w hw
  simpa using hm

theorem map_toTriple_back (es : List (edge Nat)) :
    ((es.map fun e => ((e.src, e.tgt, e.val) : Nat × Nat × Nat)).map
      fun t => ({ src := t.1, tgt := t.2.1, val := t.2.2 } : edge Nat))
      = es := by
  induction es with
  | nil => rfl
  | cons e t ih => simp [ih]

theorem insertEdges_ok (eps : List (Nat × Nat × Nat)) (g : graph Nat Nat)
    (h : ∀ t ∈ eps, g.vertexPresent t.1 = true ∧
      g.vertexPresent t.2.1 = true) :
    ∃ g2, insertEdges g eps = Except.ok g2 ∧ g2.mvc = g.mvc ∧
      g2.mec = g.mec ++ eps.map
        (fun t => { src := t.1, tgt := t.2.1, val := t.2.2 }) := by
  induction eps generalizing g with
  | nil => exact ⟨g, rfl, rfl, by simp⟩
  | cons t rest ih =>
    have ht := h t (List.mem_cons_self t rest)
    have hcond : (g.vertexPresent t.1 && g.vertexPresent t.2.1) = true := by
      simp [ht.1, ht.2]
    have hr1 : (g.insert_edge t.1 t.2.1 t.2.2).1 =
        Except.ok (t.1, t.2.1) := by
      simp [graph.insert_edge, hcond]
    have hr2 : (g.insert_edge t.1 t.2.1 t.2.2).2 =
        { g with mec := g.mec ++ [{ src := t.1, tgt := t.2.1, val := t.2.2 }],
                 maec := appendAdj g.maec t.1 (t.1, t.2.1) } := by
      simp [graph.insert_edge, hcond]
    have hpres : ∀ s ∈ rest,
        (g.insert_edge t.1 t.2.1 t.2.2).2.vertexPresent s.1 = true ∧
        (g.insert_edge t.1 t.2.1 t.2.2).2.vertexPresent s.2.1 = true := by
      intro s hs
      have hgs := h s (List.mem_cons_of_mem t hs)
      rw [hr2]
      exact hgs
    obtain ⟨g2, hg2, hmvc, hmec⟩ := ih _ hpres
    refine ⟨g2, ?_, ?_, ?_⟩
    · show insertEdges g (t :: rest) = Except.ok g2
      unfold insertEdges
      rw [hr1]
      exact hg2
    · rw [hmvc, hr2]
    · rw [hmec, hr2]
      simp

/-- C3: round-trip — for every graph satisfying the referential invariant
of spec section 3 (every edge's endpoints currently present),
deserializing the serialization succeeds and yields a graph with the same
(descriptor, property) vertex list and the same list of edge records
(source, target, property) — hence the same vertex-property set keyed by
descriptor and the same edge multiset. -/
theorem serialize_roundtrip (g : graph Nat Nat)
    (h : g.edgesValid = true) :
    ∃ g2, deserializeG (serializeG g) = Except.ok g2 ∧
      g2.vertexList = g.vertexList ∧ g2.mec = g.mec := by
  have hrp : readPairs g.num_vertices
      ((g.vertexList.flatMap fun p => [p.1, p.2]) ++
       (g.mec.flatMap fun e => [e.src, e.tgt, e.val])) =
      some (g.vertexList, g.mec.flatMap fun e => [e.src, e.tgt, e.val]) := by
    rw [num_vertices_eq_vertexList_length]
    exact readPairs_flat _ _
  have hrt : readTriples g.num_edges
      (g.mec.flatMap fun e => [e.src, e.tgt, e.val]) =
      some (g.mec.map fun e => (e.src, e.tgt, e.val), []) := by
    have h0 := readTriples_flat g.mec []
    rw [List.append_nil] at h0
    exact h0
  have hstep1 : deserializeG (serializeG g) =
      deserializeEdges g.vertexList g.num_edges
        (g.mec.flatMap fun e => [e.src, e.tgt, e.val]) := by
    show deserializeVerts g.num_vertices g.num_edges
        ((g.vertexList.flatMap fun p => [p.1, p.2]) ++
         (g.mec.flatMap fun e => [e.src, e.tgt, e.val])) = _
    unfold deserializeVerts
    rw [hrp]
  have hstep2 : deserializeEdges g.vertexList g.num_edges
      (g.mec.flatMap fun e => [e.src, e.tgt, e.val]) =
      insertEdges
        { mvc := buildSlots g.vertexList, mec := [],
          maec := List.replicate (buildSlots g.vertexList).length [] }
        (g.mec.map fun e => (e.src, e.tgt, e.val)) := by
    unfold deserializeEdges
    rw [hrt]
    rfl
  have hbase : deserializeG (serializeG g) =
      insertEdges
        { mvc := buildSlots g.vertexList, mec := [],
          maec := List.replicate (buildSlots g.vertexList).length [] }
        (g.mec.map fun e => (e.src, e.tgt, e.val)) :=
    hstep1.trans hstep2
  have hvlist : linesFrom 0 (buildSlots g.vertexList) = g.vertexList := by
    have hb := linesFrom_build g.mvc 0 [] (Nat.le_refl 0)
    simpa [buildSlots, graph.vertexList, linesFrom] using hb
  have hpres : ∀ d : Nat, g.vertexPresent d = true →
      (({ mvc := buildSlots g.vertexList, mec := [],
          maec := List.replicate (buildSlots g.vertexList).length [] } :
        graph Nat Nat)).vertexPresent d = true := by
    intro d hd
    obtain ⟨p, hp⟩ := vertexList_mem_of_present g d hd
    refine present_of_vertexList_mem _ d p ?_
    show (d, p) ∈ linesFrom 0 (buildSlots g.vertexList)
    rw [hvlist]
    exact hp
  have heps : ∀ t ∈ (g.mec.map fun e =>
      ((e.src, e.tgt, e.val) : Nat × Nat × Nat)),
      (({ mvc := buildSlots g.vertexList, mec := [],
          maec := List.replicate (buildSlots g.vertexList).length [] } :
        graph Nat Nat)).vertexPresent t.1 = true ∧
      (({ mvc := buildSlots g.vertexList, mec := [],
          maec := List.replicate (buildSlots g.vertexList).length [] } :
        graph Nat Nat)).vertexPresent t.2.1 = true := by
    intro t ht
    simp only [List.mem_map] at ht
    obtain ⟨e, he, rfl⟩ := ht
    unfold graph.edgesValid at h
    rw [List.all_eq_true] at h
    have h2 := h e he
    rw [Bool.and_eq_true] at h2
    exact ⟨hpres e.src h2.1, hpres e.tgt h2.2⟩
  obtain ⟨g2, hg2, hmvc, hmec⟩ :=
    insertEdges_ok (g.mec.map fun e => (e.src, e.tgt, e.val)) _ heps
  refine ⟨g2, ?_, ?_, ?_⟩
  · rw [hbase]
    exact hg2
  · show linesFrom 0 g2.mvc = g.vertexList
    rw [hmvc]
    exact hvlist
  · rw [hmec]
    show [] ++ _ = g.mec
    rw [List.nil_append]
    exact map_toTriple_back g.mec

/-- Concrete input for the C3 witness: vertices 0 and 1 with properties 7
and 8, and the edge (0, 1, 99). -/
def c3Graph : graph Nat Nat :=
  ((((graph.empty Nat Nat).insert_vertex 7).2.insert_vertex
      8).2.insert_edge 0 1 99).2

/-- C3 witness: the round-trip on a concrete two-vertex, one-edge graph. -/
theorem serialize_roundtrip_witness :
    c3Graph.edgesValid = true ∧
    (∃ g2, deserializeG (serializeG c3Graph) = Except.ok g2 ∧
      g2.vertexList = c3Graph.vertexList ∧ g2.mec = c3Graph.mec) :=
  ⟨by decide, serialize_roundtrip c3Graph (by decide)⟩

/-- C6 witness: erasing vertex 0 from the empty graph fails with NotFound,
and erasing vertex 0 twice from a one-vertex graph fails the second time
with NotFound. -/
theorem erase_vertex_notfound_on_absent_witness :
    (((graph.empty Nat Nat).erase_vertex 0).1 =
        Except.error GraphError.NotFound ∧
      ((graph.empty Nat Nat).erase_vertex 0).2 = graph.empty Nat Nat) ∧
    (((((graph.empty Nat Nat).insert_vertex 10).2.erase_vertex
        0).2.erase_vertex 0).1 = Except.error GraphError.NotFound) :=
  ⟨(erase_vertex_notfound_on_absent (graph.empty Nat Nat) 0).1 rfl,
   (erase_vertex_notfound_on_absent
     ((graph.empty Nat Nat).insert_vertex 10).2 0).2 rfl⟩

end Prog4
